import Mathlib

/-!
Verification of the n0conflict merge-conflict scanner.

The definitions below are a shallow embedding, over `List Char`, of the
Python sources `n0conflict/conflict.py` (conflict-block scanner and the
conflict-presence check) and `n0conflict/resolver.py` (AI-response parsing).
Text is modelled as `List Char`; reading a file is modelled as an
`Option (List Char)` (`none` when the read raises `OSError`).
-/

namespace N0Conflict

/-- Lines and text are lists of characters. -/
abbrev Line := List Char

/-- Characters treated as line boundaries by Python `str.splitlines`. -/
def isLineBreak (c : Char) : Bool :=
  c = '\n' || c = '\r' || c = '\x0b' || c = '\x0c' ||
  c = '\x1c' || c = '\x1d' || c = '\x1e' ||
  c = '\u0085' || c = '\u2028' || c = '\u2029'

/-- Python `content.splitlines(keepends=True)`: split text into lines, each
line keeping its terminator; `"\r\n"` counts as a single terminator. -/
def splitlines : List Char → List Line
  | [] => []
  | [c] => [[c]]
  | c :: c2 :: cs =>
    if c = '\r' ∧ c2 = '\n' then ['\r', '\n'] :: splitlines cs
    else if isLineBreak c then [c] :: splitlines (c2 :: cs)
    else
      match splitlines (c2 :: cs) with
      | [] => [[c]]
      | l :: ls => (c :: l) :: ls

/-- Characters stripped by Python `str.rstrip("\r\n")`. -/
def isCRLF (c : Char) : Bool := c = '\r' || c = '\n'

/-- Python `s.rstrip("\r\n")`: remove the maximal trailing run of CR/LF. -/
def rstripCRLF (l : Line) : Line := (l.reverse.dropWhile isCRLF).reverse

/-- Label extraction used at conflict.py lines 35 and 62: `line[8:].rstrip("\r\n")`. -/
def extractLabel (l : Line) : Line := rstripCRLF (l.drop 8)

/-- The 7-character opening marker token. -/
def openTok : Line := "<<<<<<<".toList

/-- The 7-character separator token. -/
def sepTok : Line := "=======".toList

/-- The 7-character closing marker token. -/
def closeTok : Line := ">>>>>>>".toList

/-- conflict.py line 30: `line.startswith("<<<<<<<")`. -/
def isOpen (l : Line) : Bool := openTok.isPrefixOf l

/-- conflict.py line 41: `lines[i].startswith("=======")`. -/
def isSep (l : Line) : Bool := sepTok.isPrefixOf l

/-- conflict.py line 54: `lines[i].startswith(">>>>>>>")`. -/
def isClose (l : Line) : Bool := closeTok.isPrefixOf l

/-- The `ConflictBlock` dataclass of conflict.py. -/
structure ConflictBlock where
  ours_label : Line
  ours : Line
  theirs_label : Line
  theirs : Line
  start : Nat
  «end» : Nat
  raw : Line
deriving DecidableEq, Repr

/-- The block emitted at conflict.py lines 66-76, given the opening marker
line, the collected "ours" lines, the separator line, the collected "theirs"
lines, the closing marker line, and the 0-based index of the opening line. -/
def mkBlock (line : Line) (oursL : List Line) (sepLine : Line)
    (theirsL : List Line) (closeLine : Line) (i : Nat) : ConflictBlock :=
  { ours_label := extractLabel line
    ours := oursL.flatten
    theirs_label := extractLabel closeLine
    theirs := theirsL.flatten
    start := i + 1
    «end» := i + oursL.length + theirsL.length + 3
    raw := (line :: (oursL ++ sepLine :: (theirsL ++ [closeLine]))).flatten }

/-- The while-loop of `parse_conflicts` (conflict.py lines 26-78), as a
fuel-indexed recursion over the list of lines; `i` is the 0-based index of
the first line of `lines` in the whole file.  Each loop entry consumes at
least one line, so `lines.length` fuel is always enough (see
`scanFuel_fuel_irrelevant`).  The inner `while` loops collecting the
"ours" / "theirs" sides are `takeWhile` / `dropWhile`; reaching the end of
input before the separator or the closing marker (`if i >= len(lines): break`)
stops the whole scan with no further blocks. -/
def scanFuel : Nat → List Line → Nat → List ConflictBlock
  | 0, _, _ => []
  | _ + 1, [], _ => []
  | fuel + 1, line :: rest, i =>
    if isOpen line then
      match rest.dropWhile (fun l => !isSep l) with
      | [] => []
      | sepLine :: rest2 =>
        match rest2.dropWhile (fun l => !isClose l) with
        | [] => []
        | closeLine :: rest4 =>
          mkBlock line (rest.takeWhile (fun l => !isSep l)) sepLine
              (rest2.takeWhile (fun l => !isClose l)) closeLine i ::
            scanFuel fuel rest4
              (i + (rest.takeWhile (fun l => !isSep l)).length +
                (rest2.takeWhile (fun l => !isClose l)).length + 3)
    else scanFuel fuel rest (i + 1)

/-- The scanner loop with its (always sufficient) fuel instantiated. -/
def scan (lines : List Line) (i : Nat) : List ConflictBlock :=
  scanFuel lines.length lines i

/-- conflict.py `parse_conflicts`: return every conflict block found in
`content`. -/
def parse_conflicts (content : List Char) : List ConflictBlock :=
  scan (splitlines content) 0

/-- Line prefixes the `parse_conflicts` while-loop consumes completely, so
that scanning resumes right after them: a sequence of skipped non-opening
lines (conflict.py lines 30-32) and complete conflict segments — an opening
marker line, "ours" lines none of which starts with the separator token, a
separator line, "theirs" lines none of which starts with the closing marker
token, and a closing marker line — after each of which the loop continues
with the following line (conflict.py line 78). -/
inductive ScannedPrefix : List Line → Prop
  | nil : ScannedPrefix []
  | skip (line : Line) (rest : List Line) :
      isOpen line = false → ScannedPrefix rest → ScannedPrefix (line :: rest)
  | block (line : Line) (oursL : List Line) (sepLine : Line)
      (theirsL : List Line) (closeLine : Line) (rest : List Line) :
      isOpen line = true →
      (∀ x ∈ oursL, isSep x = false) →
      isSep sepLine = true →
      (∀ x ∈ theirsL, isClose x = false) →
      isClose closeLine = true →
      ScannedPrefix rest →
      ScannedPrefix (line :: (oursL ++ sepLine :: (theirsL ++ closeLine :: rest)))

/-- The pattern of the `_CONFLICT_START` regex: `<{7}` followed by a space. -/
def conflictStartPat : Line := "<<<<<<< ".toList

/-- Match `pat` immediately after some `'\n'` of `s` (the positions at which
`^` can match under `re.MULTILINE`, other than the start of the string). -/
def searchAfterNewline (pat : List Char) : List Char → Bool
  | [] => false
  | c :: cs => ((c == '\n') && pat.isPrefixOf cs) || searchAfterNewline pat cs

/-- Python `re.search` of the `re.MULTILINE`-compiled pattern `^pat`:
`pat` matches at the start of the string or immediately after a `'\n'`. -/
def regexSearchLineStart (pat s : List Char) : Bool :=
  pat.isPrefixOf s || searchAfterNewline pat s

/-- conflict.py `has_conflicts`: the file read (`path.read_text`) is modelled
as an `Option (List Char)`, `none` when it raises `OSError` (the file cannot
be opened or read), in which case the function returns `false`; otherwise it
searches the decoded content for the `_CONFLICT_START` regex. -/
def has_conflicts : Option (List Char) → Bool
  | none => false
  | some content => regexSearchLineStart conflictStartPat content

/-- Characters stripped by Python `str.strip()` (whitespace). -/
def isPySpace (c : Char) : Bool :=
  [9, 10, 11, 12, 13, 28, 29, 30, 31, 32, 133, 160, 0x1680,
    0x2000, 0x2001, 0x2002, 0x2003, 0x2004, 0x2005, 0x2006, 0x2007,
    0x2008, 0x2009, 0x200a, 0x2028, 0x2029, 0x202f, 0x205f, 0x3000].contains
    c.toNat

/-- Python `s.strip()`: remove leading and trailing whitespace. -/
def pstrip (s : List Char) : List Char :=
  ((s.dropWhile isPySpace).reverse.dropWhile isPySpace).reverse

/-- The `ResolutionResult` dataclass of resolver.py. -/
structure ResolutionResult where
  resolved : Bool
  content : List Char
  explanation : List Char
deriving DecidableEq, Repr

/-- resolver.py `_parse_response` (lines 77-102): parse the raw model
response into a `ResolutionResult`. -/
def parse_response (text : List Char) : ResolutionResult :=
  let t := pstrip text
  if "RESOLVED:".toList.isPrefixOf t then
    { resolved := true
      content := pstrip (t.drop 9)
      explanation := "Conflict resolved successfully.".toList }
  else if "CANNOT_RESOLVE:".toList.isPrefixOf t then
    { resolved := false
      content := []
      explanation := pstrip (t.drop 15) }
  else
    { resolved := true
      content := t
      explanation := "Conflict resolved.".toList }

/-! Unfolding equations for the scanner loop. -/

theorem scanFuel_zero (lines : List Line) (i : Nat) : scanFuel 0 lines i = [] := rfl

theorem scanFuel_nil (fuel i : Nat) : scanFuel fuel [] i = [] := by
  cases fuel <;> rfl

theorem scanFuel_cons_skip (fuel : Nat) (line : Line) (rest : List Line) (i : Nat)
    (ho : isOpen line = false) :
    scanFuel (fuel + 1) (line :: rest) i = scanFuel fuel rest (i + 1) := by
  simp [scanFuel, ho]

theorem scanFuel_cons_nosep (fuel : Nat) (line : Line) (rest : List Line) (i : Nat)
    (ho : isOpen line = true)
    (hsep : rest.dropWhile (fun l => !isSep l) = []) :
    scanFuel (fuel + 1) (line :: rest) i = [] := by
  simp [scanFuel, ho, hsep]

theorem scanFuel_cons_noclose (fuel : Nat) (line sepLine : Line)
    (rest rest2 : List Line) (i : Nat)
    (ho : isOpen line = true)
    (hsep : rest.dropWhile (fun l => !isSep l) = sepLine :: rest2)
    (hclose : rest2.dropWhile (fun l => !isClose l) = []) :
    scanFuel (fuel + 1) (line :: rest) i = [] := by
  simp [scanFuel, ho, hsep, hclose]

theorem scanFuel_cons_emit (fuel : Nat) (line sepLine closeLine : Line)
    (rest rest2 rest4 : List Line) (i : Nat)
    (ho : isOpen line = true)
    (hsep : rest.dropWhile (fun l => !isSep l) = sepLine :: rest2)
    (hclose : rest2.dropWhile (fun l => !isClose l) = closeLine :: rest4) :
    scanFuel (fuel + 1) (line :: rest) i =
      mkBlock line (rest.takeWhile (fun l => !isSep l)) sepLine
          (rest2.takeWhile (fun l => !isClose l)) closeLine i ::
        scanFuel fuel rest4
          (i + (rest.takeWhile (fun l => !isSep l)).length +
            (rest2.takeWhile (fun l => !isClose l)).length + 3) := by
  simp [scanFuel, ho, hsep, hclose]

/-- The fuel never matters as long as it is at least the number of lines:
each loop entry consumes at least one line, so `scanFuel` with fuel
`lines.length` computes exactly the unbounded while-loop of the source. -/
theorem scanFuel_fuel_irrelevant : ∀ (fuel fuel' : Nat) (lines : List Line) (i : Nat),
    lines.length ≤ fuel → lines.length ≤ fuel' →
    scanFuel fuel lines i = scanFuel fuel' lines i := by
  intro fuel
  induction fuel with
  | zero =>
    intro fuel' lines i h _
    cases lines with
    | nil => rw [scanFuel_zero, scanFuel_nil]
    | cons line rest => simp at h
  | succ fuel ih =>
    intro fuel' lines i h h'
    cases lines with
    | nil => rw [scanFuel_nil, scanFuel_nil]
    | cons line rest =>
      cases fuel' with
      | zero => simp at h'
      | succ fuel' =>
        by_cases ho : isOpen line = true
        · cases hsep : rest.dropWhile (fun l => !isSep l) with
          | nil =>
            rw [scanFuel_cons_nosep fuel line rest i ho hsep,
              scanFuel_cons_nosep fuel' line rest i ho hsep]
          | cons sepLine rest2 =>
            cases hclose : rest2.dropWhile (fun l => !isClose l) with
            | nil =>
              rw [scanFuel_cons_noclose fuel line sepLine rest rest2 i ho hsep hclose,
                scanFuel_cons_noclose fuel' line sepLine rest rest2 i ho hsep hclose]
            | cons closeLine rest4 =>
              rw [scanFuel_cons_emit fuel line sepLine closeLine rest rest2 rest4 i
                ho hsep hclose,
                scanFuel_cons_emit fuel' line sepLine closeLine rest rest2 rest4 i
                ho hsep hclose]
              congr 1
              have hlen1 : (rest.dropWhile (fun l => !isSep l)).length ≤ rest.length :=
                (List.dropWhile_sublist _).length_le
              have hlen2 : (rest2.dropWhile (fun l => !isClose l)).length ≤ rest2.length :=
                (List.dropWhile_sublist _).length_le
              rw [hsep] at hlen1
              rw [hclose] at hlen2
              simp only [List.length_cons] at hlen1 hlen2 h h'
              exact ih _ rest4 _ (by omega) (by omega)
        · have ho' : isOpen line = false := by
            cases hh : isOpen line
            · rfl
            · exact absurd hh ho
          rw [scanFuel_cons_skip fuel line rest i ho',
            scanFuel_cons_skip fuel' line rest i ho']
          simp only [List.length_cons] at h h'
          exact ih _ rest _ (by omega) (by omega)

/-- Every block scanned from position `i` starts after `i` and its closing
marker lies at least two lines below its opening marker. -/
theorem scanFuel_mem_bounds : ∀ (fuel : Nat) (lines : List Line) (i : Nat)
    (b : ConflictBlock), b ∈ scanFuel fuel lines i →
    i + 1 ≤ b.start ∧ b.start + 2 ≤ b.«end» := by
  intro fuel
  induction fuel with
  | zero => intro lines i b hb; rw [scanFuel_zero] at hb; cases hb
  | succ fuel ih =>
    intro lines i b hb
    cases lines with
    | nil => rw [scanFuel_nil] at hb; cases hb
    | cons line rest =>
      by_cases ho : isOpen line = true
      · cases hsep : rest.dropWhile (fun l => !isSep l) with
        | nil =>
          rw [scanFuel_cons_nosep fuel line rest i ho hsep] at hb; cases hb
        | cons sepLine rest2 =>
          cases hclose : rest2.dropWhile (fun l => !isClose l) with
          | nil =>
            rw [scanFuel_cons_noclose fuel line sepLine rest rest2 i ho hsep hclose] at hb
            cases hb
          | cons closeLine rest4 =>
            rw [scanFuel_cons_emit fuel line sepLine closeLine rest rest2 rest4 i
              ho hsep hclose] at hb
            rcases List.mem_cons.mp hb with hb | hb
            · subst hb; simp only [mkBlock]; omega
            · have h := ih rest4 _ b hb
              omega
      · have ho' : isOpen line = false := by
          cases h : isOpen line
          · rfl
          · exact absurd h ho
        rw [scanFuel_cons_skip fuel line rest i ho'] at hb
        have h := ih rest (i + 1) b hb
        omega

/-- Blocks are emitted in file order: each block ends strictly before the
next one starts. -/
theorem scanFuel_pairwise : ∀ (fuel : Nat) (lines : List Line) (i : Nat),
    (scanFuel fuel lines i).Pairwise
      (fun a b => a.start < b.start ∧ a.«end» < b.start) := by
  intro fuel
  induction fuel with
  | zero => intro lines i; rw [scanFuel_zero]; exact List.Pairwise.nil
  | succ fuel ih =>
    intro lines i
    cases lines with
    | nil => rw [scanFuel_nil]; exact List.Pairwise.nil
    | cons line rest =>
      by_cases ho : isOpen line = true
      · cases hsep : rest.dropWhile (fun l => !isSep l) with
        | nil =>
          rw [scanFuel_cons_nosep fuel line rest i ho hsep]; exact List.Pairwise.nil
        | cons sepLine rest2 =>
          cases hclose : rest2.dropWhile (fun l => !isClose l) with
          | nil =>
            rw [scanFuel_cons_noclose fuel line sepLine rest rest2 i ho hsep hclose]
            exact List.Pairwise.nil
          | cons closeLine rest4 =>
            rw [scanFuel_cons_emit fuel line sepLine closeLine rest rest2 rest4 i
              ho hsep hclose]
            refine List.Pairwise.cons ?_ (ih rest4 _)
            intro b hb
            have h := scanFuel_mem_bounds fuel rest4 _ b hb
            simp only [mkBlock]
            omega
      · have ho' : isOpen line = false := by
          cases h : isOpen line
          · rfl
          · exact absurd h ho
        rw [scanFuel_cons_skip fuel line rest i ho']
        exact ih rest (i + 1)

/-- If no line starts with the opening marker token, the scan finds nothing. -/
theorem scanFuel_no_open : ∀ (fuel : Nat) (lines : List Line) (i : Nat),
    (∀ l ∈ lines, isOpen l = false) → scanFuel fuel lines i = [] := by
  intro fuel
  induction fuel with
  | zero => intro lines i _; rw [scanFuel_zero]
  | succ fuel ih =>
    intro lines i hno
    cases lines with
    | nil => rw [scanFuel_nil]
    | cons line rest =>
      rw [scanFuel_cons_skip fuel line rest i (hno line (List.mem_cons_self line rest))]
      exact ih rest (i + 1) (fun l hl => hno l (List.mem_cons_of_mem line hl))

/-- Scanning past a prefix of non-marker lines just advances the index. -/
theorem scanFuel_skip_prefix : ∀ (p : List Line) (fuel : Nat) (lines : List Line) (i : Nat),
    (∀ x ∈ p, isOpen x = false) → p.length ≤ fuel →
    scanFuel fuel (p ++ lines) i = scanFuel (fuel - p.length) lines (i + p.length) := by
  intro p
  induction p with
  | nil => intro fuel lines i _ _; simp
  | cons x p ihp =>
    intro fuel lines i hno hf
    cases fuel with
    | zero => simp at hf
    | succ fuel =>
      have hx : isOpen x = false := hno x (List.mem_cons_self x p)
      rw [List.cons_append, scanFuel_cons_skip fuel x (p ++ lines) i hx,
        ihp fuel lines (i + 1) (fun y hy => hno y (List.mem_cons_of_mem x hy))
          (by simpa using hf)]
      simp only [List.length_cons]
      congr 1
      · omega
      · omega

/-- Splitting into kept-terminator lines loses nothing: flattening the lines
recovers the text. -/
theorem splitlines_flatten : ∀ s : List Char, (splitlines s).flatten = s := by
  intro s
  induction s using splitlines.induct with
  | case1 => rfl
  | case2 c => rfl
  | case3 c c2 cs hrn ih =>
    obtain ⟨h1, h2⟩ := hrn
    subst h1; subst h2
    simp [splitlines, ih]
  | case4 c c2 cs hrn hbr ih =>
    simp [splitlines, hrn, hbr, ih]
  | case5 c c2 cs hrn hbr hnil ih =>
    rw [hnil] at ih
    simp only [List.flatten_nil] at ih
    simp [splitlines, hrn, hbr, hnil, ← ih]
  | case6 c c2 cs hrn hbr l ls hcons ih =>
    rw [hcons] at ih
    simp [splitlines, hrn, hbr, hcons]
    simpa using ih

/-- Every block found from `lines` has `raw` a contiguous part of the
flattened lines, and `ours` / `theirs` contiguous parts of `raw`. -/
theorem scanFuel_raw_parts : ∀ (fuel : Nat) (lines : List Line) (i : Nat)
    (b : ConflictBlock), b ∈ scanFuel fuel lines i →
    b.raw <:+: lines.flatten ∧ b.ours <:+: b.raw ∧ b.theirs <:+: b.raw := by
  intro fuel
  induction fuel with
  | zero => intro lines i b hb; rw [scanFuel_zero] at hb; cases hb
  | succ fuel ih =>
    intro lines i b hb
    cases lines with
    | nil => rw [scanFuel_nil] at hb; cases hb
    | cons line rest =>
      by_cases ho : isOpen line = true
      · cases hsep : rest.dropWhile (fun l => !isSep l) with
        | nil =>
          rw [scanFuel_cons_nosep fuel line rest i ho hsep] at hb; cases hb
        | cons sepLine rest2 =>
          cases hclose : rest2.dropWhile (fun l => !isClose l) with
          | nil =>
            rw [scanFuel_cons_noclose fuel line sepLine rest rest2 i ho hsep hclose] at hb
            cases hb
          | cons closeLine rest4 =>
            have hrest : rest.takeWhile (fun l => !isSep l) ++ sepLine :: rest2 = rest := by
              rw [← hsep]; exact List.takeWhile_append_dropWhile _ _
            have hrest2 : rest2.takeWhile (fun l => !isClose l) ++ closeLine :: rest4 = rest2 := by
              rw [← hclose]; exact List.takeWhile_append_dropWhile _ _
            have h1 : rest.flatten =
                (rest.takeWhile (fun l => !isSep l)).flatten ++
                  (sepLine ++ rest2.flatten) := by
              conv_lhs => rw [← hrest]
              simp [List.flatten_append, List.append_assoc]
            have h2 : rest2.flatten =
                (rest2.takeWhile (fun l => !isClose l)).flatten ++
                  (closeLine ++ rest4.flatten) := by
              conv_lhs => rw [← hrest2]
              simp [List.flatten_append, List.append_assoc]
            have hflat : (line :: rest).flatten =
                (mkBlock line (rest.takeWhile (fun l => !isSep l)) sepLine
                  (rest2.takeWhile (fun l => !isClose l)) closeLine i).raw ++
                rest4.flatten := by
              simp only [mkBlock, List.flatten_cons, List.flatten_append, h1, h2,
                List.append_assoc]
              simp [List.flatten_append, List.append_assoc]
            rw [scanFuel_cons_emit fuel line sepLine closeLine rest rest2 rest4 i
              ho hsep hclose] at hb
            rcases List.mem_cons.mp hb with hb | hb
            · subst hb
              refine ⟨⟨[], rest4.flatten, by simpa using hflat.symm⟩, ?_, ?_⟩
              · exact ⟨line, sepLine ++ (rest2.takeWhile (fun l => !isClose l)).flatten
                  ++ closeLine, by simp [mkBlock, List.flatten_append, List.append_assoc]⟩
              · exact ⟨line ++ (rest.takeWhile (fun l => !isSep l)).flatten ++ sepLine,
                  closeLine, by simp [mkBlock, List.flatten_append, List.append_assoc]⟩
            · obtain ⟨⟨u, v, huv⟩, hrest'⟩ := ih rest4 _ b hb
              refine ⟨⟨(mkBlock line (rest.takeWhile (fun l => !isSep l)) sepLine
                  (rest2.takeWhile (fun l => !isClose l)) closeLine i).raw ++ u, v, ?_⟩, hrest'⟩
              rw [hflat, ← huv]
              simp [List.append_assoc]
      · have ho' : isOpen line = false := by
          cases h : isOpen line
          · rfl
          · exact absurd h ho
        rw [scanFuel_cons_skip fuel line rest i ho'] at hb
        obtain ⟨⟨u, v, huv⟩, hrest'⟩ := ih rest (i + 1) b hb
        exact ⟨⟨line ++ u, v, by rw [List.flatten_cons, ← huv]; simp [List.append_assoc]⟩, hrest'⟩

theorem mem_takeWhile_pred {α : Type} {p : α → Bool} :
    ∀ {l : List α} {x : α}, x ∈ l.takeWhile p → p x = true := by
  intro l
  induction l with
  | nil => intro x hx; simp [List.takeWhile_nil] at hx
  | cons a l ih =>
    intro x hx
    rw [List.takeWhile_cons] at hx
    split at hx
    · rcases List.mem_cons.mp hx with h | h
      · subst h; assumption
      · exact ih h
    · cases hx

/-- Both sides of every scanned block are concatenations of input lines;
no "ours" line starts with the separator token and no "theirs" line starts
with the closing marker token. -/
theorem scanFuel_sides : ∀ (fuel : Nat) (lines : List Line) (i : Nat)
    (b : ConflictBlock), b ∈ scanFuel fuel lines i →
    ∃ oursLines theirsLines : List Line,
      b.ours = oursLines.flatten ∧ b.theirs = theirsLines.flatten ∧
      (∀ l ∈ oursLines, isSep l = false) ∧
      (∀ l ∈ theirsLines, isClose l = false) ∧
      (∀ l ∈ oursLines, l ∈ lines) ∧
      (∀ l ∈ theirsLines, l ∈ lines) := by
  intro fuel
  induction fuel with
  | zero => intro lines i b hb; rw [scanFuel_zero] at hb; cases hb
  | succ fuel ih =>
    intro lines i b hb
    cases lines with
    | nil => rw [scanFuel_nil] at hb; cases hb
    | cons line rest =>
      by_cases ho : isOpen line = true
      · cases hsep : rest.dropWhile (fun l => !isSep l) with
        | nil =>
          rw [scanFuel_cons_nosep fuel line rest i ho hsep] at hb; cases hb
        | cons sepLine rest2 =>
          cases hclose : rest2.dropWhile (fun l => !isClose l) with
          | nil =>
            rw [scanFuel_cons_noclose fuel line sepLine rest rest2 i ho hsep hclose] at hb
            cases hb
          | cons closeLine rest4 =>
            have hrest2mem : ∀ l ∈ rest2, l ∈ line :: rest := by
              intro l hl
              have h1 : l ∈ rest.dropWhile (fun l => !isSep l) := by
                rw [hsep]; exact List.mem_cons_of_mem sepLine hl
              exact List.mem_cons_of_mem line
                (List.Sublist.mem h1 (List.dropWhile_sublist _))
            have hrest4mem : ∀ l ∈ rest4, l ∈ line :: rest := by
              intro l hl
              have h1 : l ∈ rest2.dropWhile (fun l => !isClose l) := by
                rw [hclose]; exact List.mem_cons_of_mem closeLine hl
              exact hrest2mem l (List.Sublist.mem h1 (List.dropWhile_sublist _))
            rw [scanFuel_cons_emit fuel line sepLine closeLine rest rest2 rest4 i
              ho hsep hclose] at hb
            rcases List.mem_cons.mp hb with hb | hb
            · subst hb
              refine ⟨rest.takeWhile (fun l => !isSep l),
                rest2.takeWhile (fun l => !isClose l), rfl, rfl, ?_, ?_, ?_, ?_⟩
              · intro l hl
                have := mem_takeWhile_pred hl
                simpa using this
              · intro l hl
                have := mem_takeWhile_pred hl
                simpa using this
              · intro l hl
                exact List.mem_cons_of_mem line
                  (List.Sublist.mem hl (List.takeWhile_sublist _))
              · intro l hl
                exact hrest2mem l (List.Sublist.mem hl (List.takeWhile_sublist _))
            · obtain ⟨oL, tL, h1, h2, h3, h4, h5, h6⟩ := ih rest4 _ b hb
              exact ⟨oL, tL, h1, h2, h3, h4,
                fun l hl => hrest4mem l (h5 l hl),
                fun l hl => hrest4mem l (h6 l hl)⟩
      · have ho' : isOpen line = false := by
          cases h : isOpen line
          · rfl
          · exact absurd h ho
        rw [scanFuel_cons_skip fuel line rest i ho'] at hb
        obtain ⟨oL, tL, h1, h2, h3, h4, h5, h6⟩ := ih rest (i + 1) b hb
        exact ⟨oL, tL, h1, h2, h3, h4,
          fun l hl => List.mem_cons_of_mem line (h5 l hl),
          fun l hl => List.mem_cons_of_mem line (h6 l hl)⟩

theorem dropWhile_eq_nil_of_forall {α : Type} {p : α → Bool} {l : List α}
    (h : ∀ x ∈ l, p x = true) : l.dropWhile p = [] := by
  have h2 := @List.dropWhile_append_of_pos α p l [] h
  simpa using h2

theorem dropWhile_middle {α : Type} {p : α → Bool} {l₁ l₂ : List α} {s : α}
    (h : ∀ x ∈ l₁, p x = true) (hs : p s = false) :
    (l₁ ++ s :: l₂).dropWhile p = s :: l₂ := by
  rw [List.dropWhile_append_of_pos h, List.dropWhile_cons, hs]
  simp

theorem takeWhile_middle {α : Type} {p : α → Bool} {l₁ l₂ : List α} {s : α}
    (h : ∀ x ∈ l₁, p x = true) (hs : p s = false) :
    (l₁ ++ s :: l₂).takeWhile p = l₁ := by
  rw [List.takeWhile_append_of_pos h, List.takeWhile_cons, hs]
  simp

/-- Every block scanned from position `i` ends within the scanned lines. -/
theorem scanFuel_mem_end_le : ∀ (fuel : Nat) (lines : List Line) (i : Nat)
    (b : ConflictBlock), b ∈ scanFuel fuel lines i → b.«end» ≤ i + lines.length := by
  intro fuel
  induction fuel with
  | zero => intro lines i b hb; rw [scanFuel_zero] at hb; cases hb
  | succ fuel ih =>
    intro lines i b hb
    cases lines with
    | nil => rw [scanFuel_nil] at hb; cases hb
    | cons line rest =>
      by_cases ho : isOpen line = true
      · cases hsep : rest.dropWhile (fun l => !isSep l) with
        | nil =>
          rw [scanFuel_cons_nosep fuel line rest i ho hsep] at hb; cases hb
        | cons sepLine rest2 =>
          cases hclose : rest2.dropWhile (fun l => !isClose l) with
          | nil =>
            rw [scanFuel_cons_noclose fuel line sepLine rest rest2 i ho hsep hclose] at hb
            cases hb
          | cons closeLine rest4 =>
            have hrest : rest.takeWhile (fun l => !isSep l) ++ sepLine :: rest2 = rest := by
              rw [← hsep]; exact List.takeWhile_append_dropWhile _ _
            have hrest2 : rest2.takeWhile (fun l => !isClose l) ++ closeLine :: rest4 = rest2 := by
              rw [← hclose]; exact List.takeWhile_append_dropWhile _ _
            have hlen : rest.length =
                (rest.takeWhile (fun l => !isSep l)).length + 1 + rest2.length := by
              conv_lhs => rw [← hrest]
              simp only [List.length_append, List.length_cons]
              omega
            have hlen2 : rest2.length =
                (rest2.takeWhile (fun l => !isClose l)).length + 1 + rest4.length := by
              conv_lhs => rw [← hrest2]
              simp only [List.length_append, List.length_cons]
              omega
            rw [scanFuel_cons_emit fuel line sepLine closeLine rest rest2 rest4 i
              ho hsep hclose] at hb
            rcases List.mem_cons.mp hb with hb | hb
            · subst hb
              simp only [mkBlock, List.length_cons]
              omega
            · have h := ih rest4 _ b hb
              simp only [List.length_cons]
              omega
      · have ho' : isOpen line = false := by
          cases h : isOpen line
          · rfl
          · exact absurd h ho
        rw [scanFuel_cons_skip fuel line rest i ho'] at hb
        have h := ih rest (i + 1) b hb
        simp only [List.length_cons]
        omega

/-- Scanning a completely-consumed prefix followed by a suffix on which the
scan yields nothing is the same as scanning the prefix alone (with any
sufficient fuel on either side). -/
theorem scanFuel_scanned_prefix : ∀ (p : List Line), ScannedPrefix p →
    ∀ (suffix : List Line), (∀ fuel i, scanFuel fuel suffix i = []) →
    ∀ (fuel fuel' i : Nat), (p ++ suffix).length ≤ fuel → p.length ≤ fuel' →
    scanFuel fuel (p ++ suffix) i = scanFuel fuel' p i := by
  intro p hp
  induction hp with
  | nil =>
    intro suffix hdead fuel fuel' i _ _
    rw [List.nil_append, hdead fuel i, scanFuel_nil]
  | skip line rest hline _ ih =>
    intro suffix hdead fuel fuel' i hf hf'
    cases fuel with
    | zero => simp only [List.cons_append, List.length_cons] at hf; omega
    | succ fuel =>
      cases fuel' with
      | zero => simp only [List.length_cons] at hf'; omega
      | succ fuel' =>
        rw [List.cons_append, scanFuel_cons_skip fuel line (rest ++ suffix) i hline,
          scanFuel_cons_skip fuel' line rest i hline]
        refine ih suffix hdead fuel fuel' (i + 1) ?_ ?_
        · simp only [List.cons_append, List.length_cons] at hf
          omega
        · simp only [List.length_cons] at hf'
          omega
  | block line oursL sepLine theirsL closeLine rest hline hours hsep htheirs hclose _ ih =>
    intro suffix hdead fuel fuel' i hf hf'
    have hshape : (line :: (oursL ++ sepLine :: (theirsL ++ closeLine :: rest))) ++ suffix =
        line :: (oursL ++ sepLine :: (theirsL ++ closeLine :: (rest ++ suffix))) := by
      simp [List.append_assoc]
    rw [hshape] at hf ⊢
    cases fuel with
    | zero =>
      simp only [List.length_cons, List.length_append] at hf
      omega
    | succ fuel =>
      cases fuel' with
      | zero =>
        simp only [List.length_cons, List.length_append] at hf'
        omega
      | succ fuel' =>
        have hos : ∀ x ∈ oursL, (fun l => !isSep l) x = true :=
          fun x hx => by simp [hours x hx]
        have hts : ∀ x ∈ theirsL, (fun l => !isClose l) x = true :=
          fun x hx => by simp [htheirs x hx]
        have hsep1 : (oursL ++ sepLine :: (theirsL ++ closeLine :: (rest ++ suffix))).dropWhile
            (fun l => !isSep l) = sepLine :: (theirsL ++ closeLine :: (rest ++ suffix)) :=
          dropWhile_middle hos (by simp [hsep])
        have htake1 : (oursL ++ sepLine :: (theirsL ++ closeLine :: (rest ++ suffix))).takeWhile
            (fun l => !isSep l) = oursL :=
          takeWhile_middle hos (by simp [hsep])
        have hclose1 : (theirsL ++ closeLine :: (rest ++ suffix)).dropWhile
            (fun l => !isClose l) = closeLine :: (rest ++ suffix) :=
          dropWhile_middle hts (by simp [hclose])
        have htake2 : (theirsL ++ closeLine :: (rest ++ suffix)).takeWhile
            (fun l => !isClose l) = theirsL :=
          takeWhile_middle hts (by simp [hclose])
        have hsep2 : (oursL ++ sepLine :: (theirsL ++ closeLine :: rest)).dropWhile
            (fun l => !isSep l) = sepLine :: (theirsL ++ closeLine :: rest) :=
          dropWhile_middle hos (by simp [hsep])
        have htake3 : (oursL ++ sepLine :: (theirsL ++ closeLine :: rest)).takeWhile
            (fun l => !isSep l) = oursL :=
          takeWhile_middle hos (by simp [hsep])
        have hclose2 : (theirsL ++ closeLine :: rest).dropWhile
            (fun l => !isClose l) = closeLine :: rest :=
          dropWhile_middle hts (by simp [hclose])
        have htake4 : (theirsL ++ closeLine :: rest).takeWhile
            (fun l => !isClose l) = theirsL :=
          takeWhile_middle hts (by simp [hclose])
        rw [scanFuel_cons_emit fuel line sepLine closeLine _ _ _ i hline hsep1 hclose1,
          scanFuel_cons_emit fuel' line sepLine closeLine _ _ _ i hline hsep2 hclose2,
          htake1, htake2, htake3, htake4]
        congr 1
        refine ih suffix hdead fuel fuel' (i + oursL.length + theirsL.length + 3) ?_ ?_
        · simp only [List.length_cons, List.length_append] at hf ⊢
          omega
        · simp only [List.length_cons, List.length_append] at hf'
          omega

theorem rstripCRLF_cons (c : Char) (cs : List Char) :
    rstripCRLF (c :: cs) =
      if rstripCRLF cs = [] then (if isCRLF c then [] else [c])
      else c :: rstripCRLF cs := by
  unfold rstripCRLF
  rw [List.reverse_cons, List.dropWhile_append]
  by_cases h : cs.reverse.dropWhile isCRLF = []
  · rw [if_pos (by simp [h]), if_pos (by simp [h])]
    cases hc : isCRLF c <;> simp [List.dropWhile_cons, hc]
  · rw [if_neg (by simp [h]), if_neg (by simp [h])]
    simp

/-- Dropping `n` characters and stripping trailing CR/LF yields the empty
string exactly when the CR/LF-stripped string has at most `n` characters. -/
theorem rstripCRLF_drop_eq_nil_iff :
    ∀ (l : List Char) (n : Nat), rstripCRLF (l.drop n) = [] ↔ (rstripCRLF l).length ≤ n := by
  intro l
  induction l with
  | nil => intro n; simp [rstripCRLF]
  | cons c cs ih =>
    intro n
    cases n with
    | zero =>
      simp only [List.drop_zero, Nat.le_zero, List.length_eq_zero]
    | succ n =>
      rw [List.drop_succ_cons, ih n, rstripCRLF_cons]
      by_cases h : rstripCRLF cs = []
      · rw [if_pos h, h]
        constructor
        · intro _
          split <;> simp
        · intro _
          simp
      · rw [if_neg h]
        simp only [List.length_cons]
        omega

/-- The multiline search finds the pattern after a newline exactly when the
text decomposes around a `'\n'` directly followed by the pattern. -/
theorem searchAfterNewline_iff (pat : List Char) :
    ∀ s : List Char, searchAfterNewline pat s = true ↔
      ∃ a b : List Char, s = a ++ '\n' :: b ∧ pat.isPrefixOf b = true := by
  intro s
  induction s with
  | nil =>
    refine iff_of_false (by simp [searchAfterNewline]) ?_
    rintro ⟨a, b, h, -⟩
    exact absurd h.symm (by simp)
  | cons c cs ih =>
    rw [searchAfterNewline]
    constructor
    · intro h
      rcases Bool.or_eq_true _ _ |>.mp h with h | h
      · obtain ⟨h1, h2⟩ := Bool.and_eq_true _ _ |>.mp h
        exact ⟨[], cs, by simp [beq_iff_eq.mp h1], h2⟩
      · obtain ⟨a, b, heq, hp⟩ := ih.mp h
        exact ⟨c :: a, b, by simp [heq], hp⟩
    · rintro ⟨a, b, heq, hp⟩
      cases a with
      | nil =>
        simp only [List.nil_append, List.cons.injEq] at heq
        obtain ⟨h1, h2⟩ := heq
        subst h1; subst h2
        simp [hp]
      | cons a0 a' =>
        simp only [List.cons_append, List.cons.injEq] at heq
        obtain ⟨h1, h2⟩ := heq
        have h3 : searchAfterNewline pat cs = true := ih.mpr ⟨a', b, h2, hp⟩
        simp [h3]

/-! Claims. -/

/-- C1 (counterexample): the claim "if `hasConflicts` is false (no line
begins with the opening marker token followed by a space) then
`parseConflicts` is empty" fails: the scanner triggers on `"<<<<<<<"` even
with no following space, so on `"<<<<<<<x\n=======\n>>>>>>>\n"` the presence
check is false yet a block is parsed. -/
theorem hasConflicts_false_parse_nonempty :
    has_conflicts (some ("<<<<<<<x\n=======\n>>>>>>>\n".toList)) = false ∧
    (∀ l ∈ splitlines ("<<<<<<<x\n=======\n>>>>>>>\n".toList),
      conflictStartPat.isPrefixOf l = false) ∧
    parse_conflicts ("<<<<<<<x\n=======\n>>>>>>>\n".toList) ≠ [] := by
  decide

/-- C1 (amended): if no line of the content begins with the 7-character
opening marker token (with or without a following space) then
`parseConflicts` returns an empty sequence. -/
theorem parse_conflicts_eq_nil_of_no_open (c : List Char)
    (h : ∀ l ∈ splitlines c, isOpen l = false) : parse_conflicts c = [] :=
  scanFuel_no_open (splitlines c).length (splitlines c) 0 h

/-- C1 (witness): a marker-free input on which the amended claim applies. -/
theorem parse_conflicts_eq_nil_of_no_open_witness :
    (∀ l ∈ splitlines ("hello\nworld\n".toList), isOpen l = false) ∧
    parse_conflicts ("hello\nworld\n".toList) = [] :=
  ⟨by decide, parse_conflicts_eq_nil_of_no_open _ (by decide)⟩

/-- C2 (counterexample): `ours` can contain a line that starts with the
opening marker token: a second `"<<<<<<< "` line before the separator is
collected into the "ours" side. -/
theorem parse_ours_contains_open_marker_line :
    ∃ b ∈ parse_conflicts ("<<<<<<< a\n<<<<<<< b\n=======\nx\n>>>>>>> c\n".toList),
      ∃ l ∈ splitlines b.ours, isOpen l = true := by
  decide

/-- C2 (amended): for every block returned by `parseConflicts`, `ours` is the
concatenation of input lines none of which starts with the separator token,
and `theirs` is the concatenation of input lines none of which starts with
the closing marker token (but either side may still contain lines starting
with the other marker tokens). -/
theorem parse_conflicts_sides (c : List Char) (b : ConflictBlock)
    (hb : b ∈ parse_conflicts c) :
    ∃ oursLines theirsLines : List Line,
      b.ours = oursLines.flatten ∧ b.theirs = theirsLines.flatten ∧
      (∀ l ∈ oursLines, isSep l = false) ∧
      (∀ l ∈ theirsLines, isClose l = false) ∧
      (∀ l ∈ oursLines, l ∈ splitlines c) ∧
      (∀ l ∈ theirsLines, l ∈ splitlines c) :=
  scanFuel_sides (splitlines c).length (splitlines c) 0 b hb

/-- C2 (witness): the amended claim applied to a concrete one-block input. -/
theorem parse_conflicts_sides_witness :
    ∃ b ∈ parse_conflicts ("<<<<<<< HEAD\na\n=======\nb\n>>>>>>> br\n".toList),
      ∃ oursLines theirsLines : List Line,
        b.ours = oursLines.flatten ∧ b.theirs = theirsLines.flatten ∧
        (∀ l ∈ oursLines, isSep l = false) ∧
        (∀ l ∈ theirsLines, isClose l = false) ∧
        (∀ l ∈ oursLines, l ∈ splitlines ("<<<<<<< HEAD\na\n=======\nb\n>>>>>>> br\n".toList)) ∧
        (∀ l ∈ theirsLines, l ∈ splitlines ("<<<<<<< HEAD\na\n=======\nb\n>>>>>>> br\n".toList)) :=
  ⟨{ ours_label := "HEAD".toList, ours := "a\n".toList, theirs_label := "br".toList,
     theirs := "b\n".toList, start := 1, «end» := 5,
     raw := "<<<<<<< HEAD\na\n=======\nb\n>>>>>>> br\n".toList },
   by decide,
   parse_conflicts_sides ("<<<<<<< HEAD\na\n=======\nb\n>>>>>>> br\n".toList)
     { ours_label := "HEAD".toList, ours := "a\n".toList, theirs_label := "br".toList,
       theirs := "b\n".toList, start := 1, «end» := 5,
       raw := "<<<<<<< HEAD\na\n=======\nb\n>>>>>>> br\n".toList }
     (by decide)⟩

/-- C3: for every input, `parseConflicts` returns blocks in strictly
ascending `start` order and with pairwise non-overlapping `[start, end]`
ranges (each block ends strictly before the next one starts). -/
theorem parse_conflicts_ordered_disjoint (c : List Char) :
    (parse_conflicts c).Pairwise
      (fun a b => a.start < b.start ∧ a.«end» < b.start) :=
  scanFuel_pairwise (splitlines c).length (splitlines c) 0

/-- C4: for every block returned by `parseConflicts`, `raw` is a literal
contiguous substring of the input, and `ours` and `theirs` are literal
contiguous substrings of `raw`. -/
theorem parse_conflicts_substrings (c : List Char) (b : ConflictBlock)
    (hb : b ∈ parse_conflicts c) :
    b.raw <:+: c ∧ b.ours <:+: b.raw ∧ b.theirs <:+: b.raw := by
  have h := scanFuel_raw_parts (splitlines c).length (splitlines c) 0 b hb
  rwa [splitlines_flatten c] at h

/-- C4 (witness): the substring property at a concrete one-block input. -/
theorem parse_conflicts_substrings_witness :
    ∃ b ∈ parse_conflicts ("<<<<<<< HEAD\na\n=======\nb\n>>>>>>> br\n".toList),
      b.raw <:+: ("<<<<<<< HEAD\na\n=======\nb\n>>>>>>> br\n".toList) ∧
      b.ours <:+: b.raw ∧ b.theirs <:+: b.raw :=
  ⟨{ ours_label := "HEAD".toList, ours := "a\n".toList, theirs_label := "br".toList,
     theirs := "b\n".toList, start := 1, «end» := 5,
     raw := "<<<<<<< HEAD\na\n=======\nb\n>>>>>>> br\n".toList },
   by decide,
   parse_conflicts_substrings ("<<<<<<< HEAD\na\n=======\nb\n>>>>>>> br\n".toList)
     { ours_label := "HEAD".toList, ours := "a\n".toList, theirs_label := "br".toList,
       theirs := "b\n".toList, start := 1, «end» := 5,
       raw := "<<<<<<< HEAD\na\n=======\nb\n>>>>>>> br\n".toList }
     (by decide)⟩

/-- C5: whenever the scanner reaches an opening marker line as a candidate —
the lines before it form any completely-consumed prefix of skipped
non-marker lines and complete conflict segments, possibly with earlier
blocks — and the input ends before a separator line is found (or, after the
first following separator, before a closing marker line is found), then no
block is emitted for that candidate and no further blocks are emitted for
the remainder of the file: the result is exactly the scan of the prefix
before the candidate, and every returned block ends before the candidate's
line.  In particular, with an empty prefix (an input whose only opening
marker has no following separator), zero blocks are returned. -/
theorem parse_conflicts_truncated (c : List Char) (p : List Line)
    (l : Line) (r : List Line)
    (hsplit : splitlines c = p ++ l :: r)
    (hp : ScannedPrefix p)
    (hl : isOpen l = true)
    (habandon : (∀ x ∈ r, isSep x = false) ∨
      ∃ r1 s r2, r = r1 ++ s :: r2 ∧ (∀ x ∈ r1, isSep x = false) ∧
        isSep s = true ∧ ∀ x ∈ r2, isClose x = false) :
    parse_conflicts c = scan p 0 ∧
    ∀ b ∈ parse_conflicts c, b.«end» ≤ p.length := by
  have hdead : ∀ fuel i, scanFuel fuel (l :: r) i = [] := by
    intro fuel i
    cases fuel with
    | zero => exact scanFuel_zero _ _
    | succ fuel =>
      rcases habandon with hno | ⟨r1, s, r2, hr, hr1, hs, hr2⟩
      · exact scanFuel_cons_nosep fuel l r i hl
          (dropWhile_eq_nil_of_forall (fun x hx => by simp [hno x hx]))
      · have hd : r.dropWhile (fun x => !isSep x) = s :: r2 := by
          rw [hr]
          exact dropWhile_middle (fun x hx => by simp [hr1 x hx]) (by simp [hs])
        exact scanFuel_cons_noclose fuel l s r r2 i hl hd
          (dropWhile_eq_nil_of_forall (fun x hx => by simp [hr2 x hx]))
  have heq : parse_conflicts c = scan p 0 := by
    unfold parse_conflicts scan
    rw [hsplit]
    exact scanFuel_scanned_prefix p hp (l :: r) hdead _ _ 0 (le_refl _) (le_refl _)
  refine ⟨heq, fun b hb => ?_⟩
  rw [heq] at hb
  have h := scanFuel_mem_end_le p.length p 0 b hb
  omega

/-- C5 (witness): a complete conflict block followed by a truncated opening
marker (no separator before end of input): the result is exactly the scan of
the first three lines — the one earlier block — with nothing for the
truncated candidate and nothing after it. -/
theorem parse_conflicts_truncated_witness :
    splitlines ("<<<<<<< a\n=======\n>>>>>>> b\n<<<<<<< c\nX".toList) =
      ["<<<<<<< a\n".toList, "=======\n".toList, ">>>>>>> b\n".toList] ++
        ("<<<<<<< c\n".toList) :: ["X".toList] ∧
    isOpen ("<<<<<<< c\n".toList) = true ∧
    (∀ x ∈ ["X".toList], isSep x = false) ∧
    scan ["<<<<<<< a\n".toList, "=======\n".toList, ">>>>>>> b\n".toList] 0 =
      [{ ours_label := "a".toList, ours := [], theirs_label := "b".toList,
         theirs := [], start := 1, «end» := 3,
         raw := "<<<<<<< a\n=======\n>>>>>>> b\n".toList }] ∧
    parse_conflicts ("<<<<<<< a\n=======\n>>>>>>> b\n<<<<<<< c\nX".toList) =
      scan ["<<<<<<< a\n".toList, "=======\n".toList, ">>>>>>> b\n".toList] 0 ∧
    ∀ b ∈ parse_conflicts ("<<<<<<< a\n=======\n>>>>>>> b\n<<<<<<< c\nX".toList),
      b.«end» ≤ 3 := by
  have h := parse_conflicts_truncated
    ("<<<<<<< a\n=======\n>>>>>>> b\n<<<<<<< c\nX".toList)
    ["<<<<<<< a\n".toList, "=======\n".toList, ">>>>>>> b\n".toList]
    ("<<<<<<< c\n".toList) ["X".toList]
    (by decide)
    (ScannedPrefix.block ("<<<<<<< a\n".toList) [] ("=======\n".toList) []
      (">>>>>>> b\n".toList) [] (by decide) (by decide) (by decide) (by decide)
      (by decide) ScannedPrefix.nil)
    (by decide)
    (Or.inl (by decide))
  refine ⟨by decide, by decide, by decide, by decide, h.1, ?_⟩
  have h2 := h.2
  simpa using h2

/-- C6: Scenario A — parsing `"<<<<<<< HEAD\na\n=======\nb\n>>>>>>> br\n"`
yields exactly one block with `oursLabel = "HEAD"`, `ours = "a\n"`,
`theirsLabel = "br"`, `theirs = "b\n"`, `start = 1`, `end = 5`, and `raw`
equal to the whole input. -/
theorem parse_conflicts_scenarioA :
    parse_conflicts ("<<<<<<< HEAD\na\n=======\nb\n>>>>>>> br\n".toList) =
      [{ ours_label := "HEAD".toList, ours := "a\n".toList,
         theirs_label := "br".toList, theirs := "b\n".toList,
         start := 1, «end» := 5,
         raw := "<<<<<<< HEAD\na\n=======\nb\n>>>>>>> br\n".toList }] := by
  decide

/-- C7 (counterexample): a marker line with no trailing space after the
7-character token need not yield an empty label: on
`"<<<<<<<ab\n=======\n>>>>>>>\n"` the opening line has no space at index 7
yet the extracted label is `"b"` (the slice starts at index 8 and drops the
character right after the token). -/
theorem extractLabel_nospace_nonempty :
    isOpen ("<<<<<<<ab\n".toList) = true ∧
    conflictStartPat.isPrefixOf ("<<<<<<<ab\n".toList) = false ∧
    ∃ b ∈ parse_conflicts ("<<<<<<<ab\n=======\n>>>>>>>\n".toList),
      b.ours_label = "b".toList ∧ b.ours_label ≠ [] := by
  decide

/-- C7 (amended): the label slice starts at index 8 whether or not a space
follows the token, so the extracted label is empty exactly when the marker
line, after stripping trailing CR/LF, has at most 8 characters; a marker
line with two or more non-terminator characters after the token yields a
nonempty label even without a space. -/
theorem extractLabel_eq_nil_iff (l : Line) :
    extractLabel l = [] ↔ (rstripCRLF l).length ≤ 8 :=
  rstripCRLF_drop_eq_nil_iff l 8

/-- C8 (counterexample): on readable content `"a\r<<<<<<< b"` a line of the
decoded content (as the scanner splits lines) begins with the opening marker
token followed by a space, yet `hasConflicts` returns false, because the
regex anchor only matches after `'\n'` and not after a bare `'\r'`. -/
theorem hasConflicts_false_on_cr_line :
    has_conflicts (some ("a\r<<<<<<< b".toList)) = false ∧
    ∃ l ∈ splitlines ("a\r<<<<<<< b".toList),
      conflictStartPat.isPrefixOf l = true := by
  decide

/-- C8 (amended): `hasConflicts` never fails: it returns false when the file
cannot be read, and on readable content it returns true exactly when the
content starts with `"<<<<<<< "` or contains `"<<<<<<< "` immediately after
a `'\n'` — i.e. some newline-delimited line begins with the opening marker
token followed by a space (lines ended by other terminators, such as a bare
carriage return, are not considered). -/
theorem hasConflicts_characterization :
    has_conflicts none = false ∧
    ∀ c : List Char, (has_conflicts (some c) = true ↔
      conflictStartPat.isPrefixOf c = true ∨
      ∃ a b : List Char, c = a ++ '\n' :: b ∧ conflictStartPat.isPrefixOf b = true) := by
  refine ⟨rfl, fun c => ?_⟩
  unfold has_conflicts regexSearchLineStart
  rw [Bool.or_eq_true, searchAfterNewline_iff]

/-- C9: the response parser is total with exactly three shapes: a stripped
text starting with `"RESOLVED:"` yields `resolved = true` with the stripped
remainder as content; otherwise a text starting with `"CANNOT_RESOLVE:"`
yields `resolved = false`, empty content and the stripped remainder as
explanation; any other text falls back to `resolved = true` with the whole
stripped text as content. -/
theorem parse_response_cases (text : List Char) :
    ("RESOLVED:".toList.isPrefixOf (pstrip text) = true →
      parse_response text =
        { resolved := true, content := pstrip ((pstrip text).drop 9),
          explanation := "Conflict resolved successfully.".toList }) ∧
    ("RESOLVED:".toList.isPrefixOf (pstrip text) = false →
      "CANNOT_RESOLVE:".toList.isPrefixOf (pstrip text) = true →
      parse_response text =
        { resolved := false, content := [],
          explanation := pstrip ((pstrip text).drop 15) }) ∧
    ("RESOLVED:".toList.isPrefixOf (pstrip text) = false →
      "CANNOT_RESOLVE:".toList.isPrefixOf (pstrip text) = false →
      parse_response text =
        { resolved := true, content := pstrip text,
          explanation := "Conflict resolved.".toList }) := by
  refine ⟨fun h1 => ?_, fun h1 h2 => ?_, fun h1 h2 => ?_⟩
  · simp only [parse_response]
    rw [if_pos h1]
  · simp only [parse_response]
    rw [if_neg (by rw [h1]; simp), if_pos h2]
  · simp only [parse_response]
    rw [if_neg (by rw [h1]; simp), if_neg (by rw [h2]; simp)]

/-- C9 (witness): the `"RESOLVED:"` branch at a concrete response. -/
theorem parse_response_cases_witness :
    parse_response ("RESOLVED:\nx = 1\n".toList) =
      { resolved := true, content := "x = 1".toList,
        explanation := "Conflict resolved successfully.".toList } := by
  have h := (parse_response_cases ("RESOLVED:\nx = 1\n".toList)).1 (by decide)
  rw [h]
  decide

/-- C10: for every block returned by `parseConflicts`, `end ≥ start + 2`:
the opening marker, the separator and the closing marker occupy three
distinct lines. -/
theorem parse_conflicts_span (c : List Char) (b : ConflictBlock)
    (hb : b ∈ parse_conflicts c) : b.start + 2 ≤ b.«end» :=
  (scanFuel_mem_bounds (splitlines c).length (splitlines c) 0 b hb).2

/-- C10 (witness): the span bound at a concrete one-block input. -/
theorem parse_conflicts_span_witness :
    ∃ b ∈ parse_conflicts ("<<<<<<< HEAD\na\n=======\nb\n>>>>>>> br\n".toList),
      b.start + 2 ≤ b.«end» :=
  ⟨{ ours_label := "HEAD".toList, ours := "a\n".toList, theirs_label := "br".toList,
     theirs := "b\n".toList, start := 1, «end» := 5,
     raw := "<<<<<<< HEAD\na\n=======\nb\n>>>>>>> br\n".toList },
   by decide,
   parse_conflicts_span ("<<<<<<< HEAD\na\n=======\nb\n>>>>>>> br\n".toList)
     { ours_label := "HEAD".toList, ours := "a\n".toList, theirs_label := "br".toList,
       theirs := "b\n".toList, start := 1, «end» := 5,
       raw := "<<<<<<< HEAD\na\n=======\nb\n>>>>>>> br\n".toList }
     (by decide)⟩

end N0Conflict
